import Mathlib

/-!
Shallow embedding of the kchain ABCI application (`src/abci/main.go`).

The application keeps a versioned key/value tree (`iavl.VersionedTree`),
a per-block list of pending validator updates (`ValUpdates`) and a map of
genesis validators (`GenesisValidators`).  Byte strings are modelled as
`List Nat`; the tree is modelled as an association list of key/value byte
strings together with the latest saved version number.

Pieces of the repository that are referenced by `src/abci/main.go` but whose
source files are not under `src/` (the `kchain/types/cnst`, `kchain/types/code`
and `kchain/types/tx` packages, the key-prefix constants, and the tendermint
wire encoding of validator records) are modelled from the spec; each such
definition carries a doc comment starting with `Modelled from the spec:`.
-/

/-- Byte strings (`[]byte` in Go) are lists of naturals. -/
abbrev Bytes := List Nat

/-- Go's `[]byte(s)` conversion: a string viewed as its bytes (here, one
entry per character, carrying the character's code point). -/
def strB (s : String) : Bytes := s.data.map Char.toNat

/-- Go's `string(bs)` conversion on a byte slice, used as a map key in
`InitChain` (`string(v.PubKey)`). -/
def bytesToStr (bs : Bytes) : String := ⟨bs.map Char.ofNat⟩

/-- `strings.HasPrefix` on byte strings, written out recursively. -/
def hasPfx : Bytes → Bytes → Bool
  | [], _ => true
  | _ :: _, [] => false
  | a :: as, b :: bs => a == b && hasPfx as bs

/-- Lexicographic byte-string order (`bytes.Compare < 0`), used for the
rank that `iavl`'s `Get` returns as the index of a key. -/
def bytesLt : Bytes → Bytes → Bool
  | [], [] => false
  | [], _ :: _ => true
  | _ :: _, [] => false
  | a :: as, b :: bs => if a < b then true else if b < a then false else bytesLt as bs

/-- One uppercase hexadecimal digit. -/
def hexDigit (n : Nat) : Char :=
  if n < 10 then Char.ofNat (48 + n) else Char.ofNat (55 + n)

/-- Go's `fmt.Sprintf("%X", bs)` on a byte slice: two uppercase hex digits
per byte. -/
def hexStr (bs : Bytes) : String :=
  ⟨bs.foldr (fun b acc => hexDigit (b / 16 % 16) :: hexDigit (b % 16) :: acc) []⟩

/-- The key/value contents of the working tree: an association list from
key bytes to value bytes.  `iavl` stores keys uniquely; all mutation goes
through `stSet` / `stRemove`, which preserve uniqueness. -/
abbrev Store := List (Bytes × Bytes)

/-- Point lookup (`tree.Get`'s value component). -/
def stGet : Store → Bytes → Option Bytes
  | [], _ => none
  | e :: rest, k => if e.1 = k then some e.2 else stGet rest k

/-- Key-presence test (`tree.Has`). -/
def stHas (st : Store) (k : Bytes) : Bool := (stGet st k).isSome

/-- Insert or overwrite a key (`tree.Set`). -/
def stSet : Store → Bytes → Bytes → Store
  | [], k, v => [(k, v)]
  | e :: rest, k, v => if e.1 = k then (k, v) :: rest else e :: stSet rest k v

/-- Delete a key (`tree.Remove`). -/
def stRemove : Store → Bytes → Store
  | [], _ => []
  | e :: rest, k => if e.1 = k then stRemove rest k else e :: stRemove rest k

/-- The index component of `iavl`'s `Get`: the rank of the key in byte
order, i.e. the number of stored keys strictly below it. -/
def stIndexOf (st : Store) (k : Bytes) : Nat :=
  (st.filter (fun e => bytesLt e.1 k)).length

/-- Deterministic root fingerprint of the tree contents (the model of the
`appHash` that `SaveVersion` returns): a length-framed flattening of the
entries.  Equal stores have equal fingerprints. -/
def stHash (st : Store) : Bytes :=
  st.foldr (fun e acc => e.1.length :: e.1 ++ e.2.length :: e.2 ++ acc) []

namespace code

/-- Modelled from the spec: result codes of the `kchain/types/code` package
(not under `src/`); spec §7 taxonomy (OK, EncodingError, BadNonce,
Unauthorized are pairwise distinct codes). -/
def Ok : Nat := 0

/-- Modelled from the spec: the EncodingError code (`code.CodeTypeEncodingError.Code`). -/
def CodeTypeEncodingError : Nat := 1

/-- Modelled from the spec: the BadNonce code (`code.CodeTypeBadNonce.Code`). -/
def CodeTypeBadNonce : Nat := 2

/-- Modelled from the spec: the Unauthorized code (`code.CodeTypeUnauthorized.Code`). -/
def CodeTypeUnauthorized : Nat := 3

end code

/-- Modelled from the spec: the transaction-type tag of `cnst.DbSet`
(KeyValueWrite).  The tag's literal value is internal to the missing
`kchain/types/cnst` package; the tags are pairwise distinct strings. -/
def DbSet : String := "db_set"

/-- Modelled from the spec: the transaction-type tag of `cnst.AccountSet`
(AccountRegister). -/
def AccountSet : String := "account_set"

/-- Modelled from the spec: the transaction-type tag of `cnst.ValidatorSet`
(ValidatorChange). -/
def ValidatorSet : String := "validator_set"

/-- Modelled from the spec: the query path `cnst.DbGet`. -/
def DbGet : String := "db_get"

/-- Modelled from the spec: the validator key namespace
(`ValidatorSetChangePrefix` in the source, defined outside `src/`).  Its
value `"val:"` is pinned by `updateValidator`, which writes the literal key
`"val:" + string(v.PubKey)` that `DeliverTx`/`isValidatorTx` must agree
with, and by the `MakeValSetChangeTx` format `"val:%X/%d"`. -/
def ValidatorSetChangePfx : String := "val:"

/-- Modelled from the spec: the account key namespace used by `CheckTx`'s
signature gate (`AccountSetChangePrefix` in the source, defined outside
`src/`); spec §4.2 rule 1 says it is the account-key-prefix. -/
def AccountSetChangePfx : String := "account:"

/-- Modelled from the spec: the account key namespace used by `DeliverTx`
(`cnst.AccountPrefix`); spec §6 has a single account namespace, so it
equals `AccountSetChangePfx`. -/
def AccountPfx : String := "account:"

/-- A validator record (`types.Validator`): public key bytes and power. -/
structure Validator where
  PubKey : Bytes
  Power : Int
  deriving DecidableEq, Repr

/-- An account (`kchain` account): public key string and power
(`account.PubKey` is concatenated to a string prefix and `account.Power`
goes through `strconv.Itoa`). -/
structure Account where
  PubKey : String
  Power : Int
  deriving DecidableEq, Repr

/-- A key/value write payload (`ktx.Db`). -/
structure Db where
  Key : String
  Value : String
  deriving DecidableEq, Repr

/-- A parsed transaction.  Modelled from the spec: the codec
(`kchain/types/tx`, not under `src/`) is total (spec §4.1), tags the
payload with a type string and carries optional signature and signer
fields; the payload's decodings as `Db` / `Account` / `Validator` are
carried as `Option` fields (`none` models a decode error of `CheckDb` /
`ToAccount` / `ToValidator`, whose Go counterparts also yield a zero
value alongside the error). -/
structure Transaction where
  type : String
  Signature : String
  SignPubKey : String
  db : Option Db
  account : Option Account
  validator : Option Validator
  deriving DecidableEq, Repr

/-- A `ResponseCheckTx` / `ResponseDeliverTx`: code and log. -/
structure Response where
  Code : Nat
  Log : String
  deriving DecidableEq, Repr

/-- A `ResponseCommit`: code and the root fingerprint. -/
structure ResponseCommit where
  Code : Nat
  Data : Bytes
  deriving DecidableEq, Repr

/-- A `ResponseQuery`. -/
structure ResponseQuery where
  Code : Nat
  Log : String
  Index : Nat
  Key : Bytes
  Value : Bytes
  deriving DecidableEq, Repr

/-- A `RequestQuery`: the path and the result of `json.Unmarshal`-ing the
request data into a `Db` (modelled from the spec: the JSON wire decoding
lives outside `src/`; `none` is a decode error). -/
structure RequestQuery where
  Path : String
  Data : Option Db
  deriving DecidableEq, Repr

/-- The versioned tree (`iavl.VersionedTree`): working contents plus the
latest saved version. -/
structure VersionedTree where
  tree : Store
  latestVersion : Nat
  deriving DecidableEq, Repr

/-- The application state (`PersistentApplication`). -/
structure App where
  state : VersionedTree
  ValUpdates : List Validator
  GenesisValidators : List (String × Int)
  deriving DecidableEq, Repr

/-- Go map read with zero default (`app.GenesisValidators[k]`). -/
def mapGet (m : List (String × Int)) (k : String) : Int :=
  match m with
  | [] => 0
  | e :: rest => if e.1 = k then e.2 else mapGet rest k

/-- Go map write (`app.GenesisValidators[k] = v`). -/
def mapSet (m : List (String × Int)) (k : String) (v : Int) : List (String × Int) :=
  match m with
  | [] => [(k, v)]
  | e :: rest => if e.1 = k then (k, v) :: rest else e :: mapSet rest k v

/-- Little-endian base-256 digits of a natural number, most significant
digit last, with no trailing zero digit. -/
def natLE (n : Nat) : List Nat :=
  if h : n = 0 then [] else n % 256 :: natLE (n / 256)
decreasing_by exact Nat.div_lt_self (Nat.pos_of_ne_zero h) (by decide)

/-- Value of a little-endian base-256 digit list. -/
def leNat : List Nat → Nat
  | [] => 0
  | b :: bs => b + 256 * leNat bs

/-- Byte encoding of an integer: a sign byte followed by the base-256
digits of the absolute value. -/
def intEnc (i : Int) : Bytes :=
  (if i < 0 then 1 else 0) :: natLE i.natAbs

/-- Decoding of `intEnc`. -/
def intDec : Bytes → Option Int
  | [] => none
  | s :: bs => some (if s = 1 then -(leNat bs : Int) else (leNat bs : Int))

/-- Modelled from the spec: the canonical binary encoding of a validator
record (`types.WriteMessage` on a `types.Validator`, a library outside
`src/`): a length-framed public key followed by the encoded power.  The
spec (§3, §4.4) requires only that writer and reader share one canonical,
round-tripping encoding. -/
def encodeValidator (v : Validator) : Bytes :=
  v.PubKey.length :: (v.PubKey ++ intEnc v.Power)

/-- Modelled from the spec: the decoding side of the canonical validator
encoding (`types.ReadMessage`); `none` models a decode failure. -/
def decodeValidator (bs : Bytes) : Option Validator :=
  match bs with
  | [] => none
  | n :: rest =>
    if n ≤ rest.length then
      match intDec (rest.drop n) with
      | some p => some ⟨rest.take n, p⟩
      | none => none
    else none

/-- The store key of a validator record:
`[]byte(ValidatorSetChangePrefix + string(v.PubKey))`. -/
def valKey (pk : Bytes) : Bytes := strB ValidatorSetChangePfx ++ pk

/-- `isValidatorTx` from the source: does the store key carry the
validator prefix? -/
def isValidatorTx (k : Bytes) : Bool := hasPfx (strB ValidatorSetChangePfx) k

/-- `updateValidator` from the source: remove the record when power is 0
(failing with Unauthorized when it does not exist), otherwise write the
encoded record; on success append the record to `ValUpdates`. -/
def updateValidator (app : App) (v : Validator) : Response × App :=
  let key := valKey v.PubKey
  if v.Power = 0 then
    if !stHas app.state.tree key then
      (⟨code.CodeTypeUnauthorized, "Cannot remove non-existent validator " ++ hexStr key⟩, app)
    else
      (⟨code.Ok, ""⟩,
        { app with
          state := { app.state with tree := stRemove app.state.tree key }
          ValUpdates := app.ValUpdates ++ [v] })
  else
    (⟨code.Ok, ""⟩,
      { app with
        state := { app.state with tree := stSet app.state.tree key (encodeValidator v) }
        ValUpdates := app.ValUpdates ++ [v] })

/-- `DeliverTx` from the source.  The Go method mutates the receiver; the
model returns the response together with the updated application state.
In the `DbSet` arm the source calls `CheckDb` and discards its error and
in the `AccountSet` arm it discards `ToAccount`'s error, so a failed
decode leaves the Go zero value, modelled by `Option.getD` with the
zero-valued record.  The `WriteMessage` error arm is dead in the model
because `encodeValidator` is total. -/
def DeliverTx (app : App) (tx : Transaction) : Response × App :=
  if tx.type = DbSet then
    let d := tx.db.getD ⟨"", ""⟩
    (⟨code.Ok, ""⟩,
      { app with state := { app.state with tree := stSet app.state.tree (strB d.Key) (strB d.Value) } })
  else if tx.type = AccountSet then
    let a := tx.account.getD ⟨"", 0⟩
    (⟨code.Ok, ""⟩,
      { app with state := { app.state with
          tree := stSet app.state.tree (strB (AccountPfx ++ a.PubKey)) (strB (toString a.Power)) } })
  else if tx.type = ValidatorSet then
    let v := tx.validator.getD ⟨[], 0⟩
    let key := valKey v.PubKey
    if v.Power = 0 then
      if !stHas app.state.tree key then
        (⟨code.CodeTypeUnauthorized, "Cannot remove non-existent validator " ++ hexStr key⟩, app)
      else
        (⟨code.Ok, ""⟩,
          { app with
            state := { app.state with tree := stRemove app.state.tree key }
            ValUpdates := app.ValUpdates ++ [v] })
    else
      (⟨code.Ok, ""⟩,
        { app with
          state := { app.state with tree := stSet app.state.tree key (encodeValidator v) }
          ValUpdates := app.ValUpdates ++ [v] })
  else
    (⟨code.CodeTypeEncodingError, "unknown transaction type"⟩, app)

/-- Modelled from the spec: the error text of a `CheckDb` failure
(`err.Error()` of the missing `kchain/types/tx` decoder). -/
def dbErrMsg : String := "malformed db payload"

/-- Modelled from the spec: the error text of a `ToAccount` failure. -/
def accErrMsg : String := "malformed account payload"

/-- Modelled from the spec: the error text of a `ToValidator` failure. -/
def valErrMsg : String := "malformed validator payload"

/-- `CheckTx` from the source.  It never assigns to any application
field, so the model returns the application unchanged alongside the
response.  The `FromBytes` error arm of the source is dead here because
the codec is total (spec §4.1).  The signature gate tests `index == 0`
of the `iavl` lookup of `AccountSetChangePrefix + SignPubKey` — the
key's rank, not its presence — exactly as the source does. -/
def CheckTx (app : App) (tx : Transaction) : Response × App :=
  if tx.Signature ≠ "" ∧ stIndexOf app.state.tree (strB (AccountSetChangePfx ++ tx.SignPubKey)) = 0 then
    (⟨code.CodeTypeEncodingError, "节点账户不存在"⟩, app)
  else if tx.type = DbSet then
    match tx.db with
    | none => (⟨code.CodeTypeEncodingError, dbErrMsg⟩, app)
    | some _ => (⟨code.Ok, ""⟩, app)
  else if tx.type = AccountSet then
    if mapGet app.GenesisValidators tx.SignPubKey = 0 then
      (⟨code.CodeTypeEncodingError, "验证节点错误"⟩, app)
    else
      match tx.account with
      | none => (⟨code.CodeTypeEncodingError, accErrMsg⟩, app)
      | some _ => (⟨code.Ok, ""⟩, app)
  else if tx.type = ValidatorSet then
    if mapGet app.GenesisValidators tx.SignPubKey = 0 then
      (⟨code.CodeTypeEncodingError, "验证节点错误"⟩, app)
    else
      match tx.validator with
      | none => (⟨code.CodeTypeEncodingError, valErrMsg⟩, app)
      | some _ => (⟨code.Ok, ""⟩, app)
  else
    (⟨code.CodeTypeEncodingError, "unknown transaction type"⟩, app)

/-- `iavl.VersionedTree.SaveVersion`: seals the working contents as the
given version and returns its root fingerprint.  Its only failure mode
relevant at this layer is being asked to re-save an already-saved
version; I/O failure is outside the model. -/
def SaveVersion (s : VersionedTree) (h : Nat) : Except String (Bytes × VersionedTree) :=
  if h ≤ s.latestVersion then .error "version already saved"
  else .ok (stHash s.tree, { s with latestVersion := h })

/-- `Commit` from the source: save version `latest + 1`; a `SaveVersion`
error is a `panic` in the source, modelled as `Except.error` (the model
never produces a response nor a partial state on that path). -/
def Commit (app : App) : Except String (ResponseCommit × App) :=
  let height := app.state.latestVersion + 1
  match SaveVersion app.state height with
  | .error e => .error e
  | .ok (appHash, s) => .ok (⟨code.Ok, appHash⟩, { app with state := s })

/-- `Query` from the source: the `DbGet` path looks the key up and
reports `"exists"` / `"does not exist"`; the response code is the Go
zero value `0` (= OK) on that path. Other paths are rejected with
BadNonce / `"wrong path"`. -/
def Query (app : App) (req : RequestQuery) : ResponseQuery :=
  if req.Path = DbGet then
    match req.Data with
    | none => ⟨code.CodeTypeBadNonce, "json unmarshal error", 0, [], []⟩
    | some db =>
      let index := stIndexOf app.state.tree (strB db.Key)
      let value := stGet app.state.tree (strB db.Key)
      ⟨0, if value ≠ none then "exists" else "does not exist", index, strB db.Key, value.getD []⟩
  else ⟨code.CodeTypeBadNonce, "wrong path", 0, [], []⟩

/-- `InitChain` from the source: for each genesis validator run
`updateValidator`; on success also record the validator in
`GenesisValidators` under the key `string(v.PubKey)`. -/
def InitChain (app : App) (vals : List Validator) : App :=
  vals.foldl
    (fun a v =>
      let r := updateValidator a v
      if r.1.Code = code.Ok then
        { r.2 with GenesisValidators := mapSet r.2.GenesisValidators (bytesToStr v.PubKey) v.Power }
      else r.2)
    app

/-- `BeginBlock` from the source: resets `ValUpdates` — and also
reassigns `GenesisValidators` to a fresh empty map. -/
def BeginBlock (app : App) : App :=
  { app with ValUpdates := [], GenesisValidators := [] }

/-- `EndBlock` from the source: emits the pending validator updates. -/
def EndBlock (app : App) : List Validator := app.ValUpdates

/-- `Validators` from the source: scan the tree, decode every value under
a validator-prefixed key with the canonical decoder; a decode failure is
a `panic` in the source, modelled as `none`. -/
def Validators : Store → Option (List Validator)
  | [] => some []
  | e :: rest =>
    if isValidatorTx e.1 then
      match decodeValidator e.2 with
      | none => none
      | some v => (Validators rest).map (v :: ·)
    else Validators rest

/-- Store coherence for the validator namespace: every entry under a
validator-prefixed key decodes, and its key is the validator key of the
decoded record's public key.  All validator writes of the application
maintain this. -/
def wfStore : Store → Bool
  | [] => true
  | e :: rest =>
    if isValidatorTx e.1 then
      match decodeValidator e.2 with
      | some v => if e.1 = valKey v.PubKey then wfStore rest else false
      | none => false
    else wfStore rest

/-- A freshly started application: empty tree, no saved version, no
pending updates, no genesis validators. -/
def emptyApp : App := ⟨⟨[], 0⟩, [], []⟩

/-! ## Helper lemmas -/

theorem leNat_natLE (n : Nat) : leNat (natLE n) = n := by
  induction n using Nat.strong_induction_on with
  | _ n ih =>
    rw [natLE]
    by_cases h : n = 0
    · simp [h, leNat]
    · simp only [h, dite_false, leNat]
      rw [ih (n / 256) (Nat.div_lt_self (Nat.pos_of_ne_zero h) (by decide))]
      omega

theorem intDec_intEnc (i : Int) : intDec (intEnc i) = some i := by
  by_cases h : i < 0
  · simp only [intEnc, if_pos h, intDec, leNat_natLE]
    rw [if_true]
    exact congrArg some (by omega)
  · simp only [intEnc, if_neg h, intDec, leNat_natLE]
    rw [if_neg (by decide : ¬(0 : Nat) = 1)]
    exact congrArg some (by omega)

theorem decodeValidator_encodeValidator (v : Validator) :
    decodeValidator (encodeValidator v) = some v := by
  simp only [encodeValidator, decodeValidator]
  rw [if_pos (by simp)]
  rw [List.drop_left, List.take_left, intDec_intEnc]

theorem hasPfx_append (p l : Bytes) : hasPfx p (p ++ l) = true := by
  induction p with
  | nil => rfl
  | cons a as ih => simp [hasPfx, ih]

theorem isValidatorTx_valKey (pk : Bytes) : isValidatorTx (valKey pk) = true := by
  simp [isValidatorTx, valKey, hasPfx_append]

theorem valKey_inj {pk1 pk2 : Bytes} (h : valKey pk1 = valKey pk2) : pk1 = pk2 := by
  simpa [valKey] using h

theorem wfStore_tail {e : Bytes × Bytes} {rest : Store}
    (h : wfStore (e :: rest) = true) : wfStore rest = true := by
  rw [wfStore] at h
  by_cases hv : isValidatorTx e.1 = true
  · rw [if_pos hv] at h
    cases hdec : decodeValidator e.2 with
    | none => rw [hdec] at h; exact absurd h (by simp)
    | some v =>
      rw [hdec] at h
      have h2 : (if e.1 = valKey v.PubKey then wfStore rest else false) = true := h
      by_cases hk : e.1 = valKey v.PubKey
      · rwa [if_pos hk] at h2
      · rw [if_neg hk] at h2; exact absurd h2 (by simp)
  · rwa [if_neg hv] at h

theorem wfStore_head {e : Bytes × Bytes} {rest : Store}
    (h : wfStore (e :: rest) = true) (hv : isValidatorTx e.1 = true) :
    ∃ v, decodeValidator e.2 = some v ∧ e.1 = valKey v.PubKey := by
  rw [wfStore, if_pos hv] at h
  cases hdec : decodeValidator e.2 with
  | none => rw [hdec] at h; exact absurd h (by simp)
  | some v =>
    rw [hdec] at h
    have h2 : (if e.1 = valKey v.PubKey then wfStore rest else false) = true := h
    by_cases hk : e.1 = valKey v.PubKey
    · exact ⟨v, rfl, hk⟩
    · rw [if_neg hk] at h2; exact absurd h2 (by simp)

theorem validators_of_wf (st : Store) (h : wfStore st = true) :
    ∃ l, Validators st = some l := by
  induction st with
  | nil => exact ⟨[], rfl⟩
  | cons e rest ih =>
    obtain ⟨l, hl⟩ := ih (wfStore_tail h)
    rw [Validators]
    by_cases hv : isValidatorTx e.1 = true
    · obtain ⟨v, hdec, _⟩ := wfStore_head h hv
      rw [if_pos hv, hdec]
      exact ⟨v :: l, by simp [hl]⟩
    · rw [if_neg hv]
      exact ⟨l, hl⟩

theorem stGet_stSet_self (st : Store) (k v : Bytes) :
    stGet (stSet st k v) k = some v := by
  induction st with
  | nil => simp [stSet, stGet]
  | cons e rest ih =>
    by_cases h : e.1 = k
    · simp [stSet, h, stGet]
    · simp [stSet, h, stGet, ih]

theorem stGet_stRemove_self (st : Store) (k : Bytes) :
    stGet (stRemove st k) k = none := by
  induction st with
  | nil => rfl
  | cons e rest ih =>
    by_cases h : e.1 = k
    · simp [stRemove, h, ih]
    · simp [stRemove, h, stGet, ih]

theorem wfStore_stSet_val (v : Validator) (st : Store) (h : wfStore st = true) :
    wfStore (stSet st (valKey v.PubKey) (encodeValidator v)) = true := by
  induction st with
  | nil =>
    simp [stSet, wfStore, isValidatorTx_valKey, decodeValidator_encodeValidator]
  | cons e rest ih =>
    rw [stSet]
    by_cases hk : e.1 = valKey v.PubKey
    · rw [if_pos hk, wfStore]
      simp [isValidatorTx_valKey, decodeValidator_encodeValidator, wfStore_tail h]
    · rw [if_neg hk, wfStore]
      by_cases hv : isValidatorTx e.1 = true
      · obtain ⟨w, hdec, hke⟩ := wfStore_head h hv
        rw [if_pos hv, hdec]
        show (if e.1 = valKey w.PubKey then
          wfStore (stSet rest (valKey v.PubKey) (encodeValidator v)) else false) = true
        rw [if_pos hke]
        exact ih (wfStore_tail h)
      · rw [if_neg hv]
        exact ih (wfStore_tail h)

theorem validators_stSet_mem (v : Validator) (st : Store) (h : wfStore st = true) :
    ∃ l, Validators (stSet st (valKey v.PubKey) (encodeValidator v)) = some l ∧ v ∈ l := by
  induction st with
  | nil =>
    refine ⟨[v], ?_, by simp⟩
    simp [stSet, Validators, isValidatorTx_valKey, decodeValidator_encodeValidator]
  | cons e rest ih =>
    rw [stSet]
    by_cases hk : e.1 = valKey v.PubKey
    · obtain ⟨l, hl⟩ := validators_of_wf rest (wfStore_tail h)
      rw [if_pos hk]
      refine ⟨v :: l, ?_, by simp⟩
      simp [Validators, isValidatorTx_valKey, decodeValidator_encodeValidator, hl]
    · obtain ⟨l, hl, hm⟩ := ih (wfStore_tail h)
      rw [if_neg hk, Validators]
      by_cases hv : isValidatorTx e.1 = true
      · obtain ⟨w, hdec, _⟩ := wfStore_head h hv
        rw [if_pos hv, hdec]
        exact ⟨w :: l, by simp [hl], List.mem_cons_of_mem w hm⟩
      · rw [if_neg hv]
        exact ⟨l, hl, hm⟩

theorem validators_stRemove_not_mem (pk : Bytes) (st : Store) (h : wfStore st = true) :
    ∃ l, Validators (stRemove st (valKey pk)) = some l ∧ ∀ w ∈ l, w.PubKey ≠ pk := by
  induction st with
  | nil => exact ⟨[], rfl, by simp⟩
  | cons e rest ih =>
    obtain ⟨l, hl, hall⟩ := ih (wfStore_tail h)
    rw [stRemove]
    by_cases hk : e.1 = valKey pk
    · rw [if_pos hk]
      exact ⟨l, hl, hall⟩
    · rw [if_neg hk, Validators]
      by_cases hv : isValidatorTx e.1 = true
      · obtain ⟨w, hdec, hke⟩ := wfStore_head h hv
        rw [if_pos hv, hdec]
        refine ⟨w :: l, by simp [hl], ?_⟩
        intro u hu
        rcases List.mem_cons.mp hu with hu | hu
        · subst hu
          intro hcon
          exact hk (hke.trans (by rw [hcon]))
        · exact hall u hu
      · rw [if_neg hv]
        exact ⟨l, hl, hall⟩

/-! ## Claims -/

/-- C1: for every transaction, including malformed ones, `CheckTx` leaves
the application — in particular the `StateStore` contents (hence the root
fingerprint a subsequent `Commit` produces) and the pending validator
updates — completely unchanged: it only reads. -/
theorem checkTx_preserves_state (app : App) (tx : Transaction) :
    (CheckTx app tx).2 = app ∧
    stHash (CheckTx app tx).2.state.tree = stHash app.state.tree ∧
    (CheckTx app tx).2.ValUpdates = app.ValUpdates ∧
    Commit (CheckTx app tx).2 = Commit app := by
  have h : (CheckTx app tx).2 = app := by
    unfold CheckTx
    repeat' split
    all_goals rfl
  exact ⟨h, by rw [h], by rw [h], by rw [h]⟩

/-- C2: `Commit` always saves version `latestVersion + 1` — advancing the
store version by exactly one, never skipping or decreasing — and returns
the new root fingerprint with the OK code; the `SaveVersion`-failure path
is an error propagation (the source `panic`s) and never yields a partial
commit. -/
theorem commit_advances_version_by_one (app : App) :
    Commit app = Except.ok
      (⟨code.Ok, stHash app.state.tree⟩,
       { app with state := { app.state with latestVersion := app.state.latestVersion + 1 } }) := by
  simp [Commit, SaveVersion, Nat.not_succ_le_self]

/-- C3 counterexample: an `AccountRegister` transaction with an unsigned
payload whose signer is not in the genesis set is rejected by `CheckTx`
with the EncodingError code (log `验证节点错误`), not with the
Unauthorized code that the claim names. -/
theorem checkTx_nonGenesis_code_counterexample :
    (CheckTx emptyApp ⟨AccountSet, "", "nobody", none, some ⟨"x", 1⟩, none⟩).1.Code
        ≠ code.CodeTypeUnauthorized ∧
    (CheckTx emptyApp ⟨AccountSet, "", "nobody", none, some ⟨"x", 1⟩, none⟩).1.Code
        = code.CodeTypeEncodingError := by
  decide

/-- C3 amended: for every `AccountRegister` or `ValidatorChange`
transaction whose signer is not present in the genesis authorization set,
`CheckTx` rejects it with the EncodingError code (the source returns
`code.CodeTypeEncodingError` on every rejection path of these arms, never
`code.CodeTypeUnauthorized`). -/
theorem checkTx_nonGenesis_encodingError (app : App) (tx : Transaction)
    (ht : tx.type = AccountSet ∨ tx.type = ValidatorSet)
    (hg : mapGet app.GenesisValidators tx.SignPubKey = 0) :
    (CheckTx app tx).1.Code = code.CodeTypeEncodingError := by
  unfold CheckTx
  by_cases hs : tx.Signature ≠ "" ∧
      stIndexOf app.state.tree (strB (AccountSetChangePfx ++ tx.SignPubKey)) = 0
  · rw [if_pos hs]
  · rw [if_neg hs]
    rcases ht with h | h
    · have h1 : tx.type ≠ DbSet := by rw [h]; decide
      rw [if_neg h1, if_pos h, if_pos hg]
    · have h1 : tx.type ≠ DbSet := by rw [h]; decide
      have h2 : tx.type ≠ AccountSet := by rw [h]; decide
      rw [if_neg h1, if_neg h2, if_pos h, if_pos hg]

/-- C3 amended, witness: the concrete non-genesis `AccountRegister`
transaction above is rejected with the EncodingError code. -/
theorem checkTx_nonGenesis_encodingError_witness :
    (mapGet emptyApp.GenesisValidators "nobody" = 0) ∧
    (CheckTx emptyApp ⟨AccountSet, "", "nobody", none, some ⟨"x", 1⟩, none⟩).1.Code
      = code.CodeTypeEncodingError :=
  ⟨rfl, checkTx_nonGenesis_encodingError emptyApp
    ⟨AccountSet, "", "nobody", none, some ⟨"x", 1⟩, none⟩ (Or.inl rfl) rfl⟩

/-- C4 (code bug): the claim — entries of the genesis authorization set
persist across block cycles — is the documented intent (spec §3
lifecycle, §9), but `BeginBlock` in the source reassigns
`app.GenesisValidators` to a fresh empty map.  Concretely: after
`InitChain` with one genesis validator (pubkey byte `0x01`, power 10) the
signer is authorized (power 10), and after the very next `BeginBlock` the
set is empty and the lookup yields 0, so the signer is no longer
authorized. -/
theorem beginBlock_clears_genesis_authorization :
    mapGet (InitChain emptyApp [⟨[1], 10⟩]).GenesisValidators (bytesToStr [1]) = 10 ∧
    (BeginBlock (InitChain emptyApp [⟨[1], 10⟩])).GenesisValidators = [] ∧
    mapGet (BeginBlock (InitChain emptyApp [⟨[1], 10⟩])).GenesisValidators (bytesToStr [1]) = 0 := by
  decide

/-- C5: every `ValidatorChange` with power > 0 that `DeliverTx` applies
succeeds with OK, and a subsequent enumeration of the validators
(scanning the validator-prefixed keys and decoding each value with the
canonical decoder) contains a record with exactly that public key and
power — the written encoding round-trips through the enumeration's
decoder.  The store is assumed coherent in the validator namespace
(`wfStore`), which every validator write maintains; without it the
source's enumeration `panic`s on unrelated corrupt entries. -/
theorem deliverTx_validator_roundtrip_enumeration (app : App) (tx : Transaction)
    (v : Validator) (ht : tx.type = ValidatorSet) (hv : tx.validator = some v)
    (hp : 0 < v.Power) (hwf : wfStore app.state.tree = true) :
    (DeliverTx app tx).1.Code = code.Ok ∧
    ∃ l, Validators (DeliverTx app tx).2.state.tree = some l ∧ v ∈ l := by
  have h1 : tx.type ≠ DbSet := by rw [ht]; decide
  have h2 : tx.type ≠ AccountSet := by rw [ht]; decide
  have hp0 : ¬v.Power = 0 := by omega
  have heq : DeliverTx app tx =
      (⟨code.Ok, ""⟩,
        { app with
          state := { app.state with
            tree := stSet app.state.tree (valKey v.PubKey) (encodeValidator v) }
          ValUpdates := app.ValUpdates ++ [v] }) := by
    simp only [DeliverTx, if_neg h1, if_neg h2, if_pos ht, hv, Option.getD_some, if_neg hp0]
  rw [heq]
  obtain ⟨l, hl, hm⟩ := validators_stSet_mem v app.state.tree hwf
  exact ⟨rfl, l, hl, hm⟩

/-- C5 witness: delivering `ValidatorChange` (pubkey `[7]`, power 20) to a
fresh application succeeds and the enumeration afterwards contains exactly
that record. -/
theorem deliverTx_validator_roundtrip_enumeration_witness :
    ((⟨ValidatorSet, "", "", none, none, some ⟨[7], 20⟩⟩ : Transaction).type = ValidatorSet ∧
      (0 : Int) < 20 ∧ wfStore emptyApp.state.tree = true) ∧
    ((DeliverTx emptyApp ⟨ValidatorSet, "", "", none, none, some ⟨[7], 20⟩⟩).1.Code = code.Ok ∧
      ∃ l, Validators (DeliverTx emptyApp
        ⟨ValidatorSet, "", "", none, none, some ⟨[7], 20⟩⟩).2.state.tree = some l ∧
        (⟨[7], 20⟩ : Validator) ∈ l) :=
  ⟨⟨rfl, by decide, rfl⟩,
    deliverTx_validator_roundtrip_enumeration emptyApp
      ⟨ValidatorSet, "", "", none, none, some ⟨[7], 20⟩⟩ ⟨[7], 20⟩ rfl rfl (by decide) rfl⟩

/-- C6: a `ValidatorChange` with power 0 for a public key with no record
under the validator prefix fails with the Unauthorized code and mutates
nothing; after the validator has been added, the same removal succeeds
with OK, the record is gone from the store, and the validator no longer
appears in the enumeration. -/
theorem validator_remove_semantics (app : App) (pk : Bytes) (p : Int)
    (txA txR : Transaction)
    (hta : txA.type = ValidatorSet) (hva : txA.validator = some ⟨pk, p⟩) (hp : 0 < p)
    (htr : txR.type = ValidatorSet) (hvr : txR.validator = some ⟨pk, 0⟩)
    (habs : stHas app.state.tree (valKey pk) = false)
    (hwf : wfStore app.state.tree = true) :
    ((DeliverTx app txR).1.Code = code.CodeTypeUnauthorized ∧
      (DeliverTx app txR).2 = app) ∧
    ((DeliverTx (DeliverTx app txA).2 txR).1.Code = code.Ok ∧
      stHas (DeliverTx (DeliverTx app txA).2 txR).2.state.tree (valKey pk) = false ∧
      ∃ l, Validators (DeliverTx (DeliverTx app txA).2 txR).2.state.tree = some l ∧
        ∀ w ∈ l, w.PubKey ≠ pk) := by
  have h1r : txR.type ≠ DbSet := by rw [htr]; decide
  have h2r : txR.type ≠ AccountSet := by rw [htr]; decide
  have h1a : txA.type ≠ DbSet := by rw [hta]; decide
  have h2a : txA.type ≠ AccountSet := by rw [hta]; decide
  have hp0 : ¬p = 0 := by omega
  have heqA : DeliverTx app txA =
      (⟨code.Ok, ""⟩,
        { app with
          state := { app.state with
            tree := stSet app.state.tree (valKey pk) (encodeValidator ⟨pk, p⟩) }
          ValUpdates := app.ValUpdates ++ [⟨pk, p⟩] }) := by
    simp only [DeliverTx, if_neg h1a, if_neg h2a, if_pos hta, hva, Option.getD_some, if_neg hp0]
  constructor
  · have heqR : DeliverTx app txR =
        (⟨code.CodeTypeUnauthorized,
            "Cannot remove non-existent validator " ++ hexStr (valKey pk)⟩, app) := by
      simp only [DeliverTx, if_neg h1r, if_neg h2r, if_pos htr, hvr, Option.getD_some,
        if_pos rfl, habs, Bool.not_false, if_pos trivial]
    rw [heqR]
    exact ⟨rfl, rfl⟩
  · rw [heqA]
    have hwf1 : wfStore (stSet app.state.tree (valKey pk) (encodeValidator ⟨pk, p⟩)) = true :=
      wfStore_stSet_val ⟨pk, p⟩ app.state.tree hwf
    have hhas : stHas (stSet app.state.tree (valKey pk) (encodeValidator ⟨pk, p⟩))
        (valKey pk) = true := by
      simp [stHas, stGet_stSet_self]
    have heqR2 : DeliverTx
        { app with
          state := { app.state with
            tree := stSet app.state.tree (valKey pk) (encodeValidator ⟨pk, p⟩) }
          ValUpdates := app.ValUpdates ++ [⟨pk, p⟩] } txR =
        (⟨code.Ok, ""⟩,
          { app with
            state := { app.state with
              tree := stRemove (stSet app.state.tree (valKey pk) (encodeValidator ⟨pk, p⟩))
                (valKey pk) }
            ValUpdates := (app.ValUpdates ++ [⟨pk, p⟩]) ++ [⟨pk, 0⟩] }) := by
      simp only [DeliverTx, if_neg h1r, if_neg h2r, if_pos htr, hvr, Option.getD_some,
        if_pos rfl, hhas, Bool.not_true, if_neg (by decide : ¬false = true), if_true]
    rw [heqR2]
    obtain ⟨l, hl, hall⟩ := validators_stRemove_not_mem pk _ hwf1
    refine ⟨rfl, ?_, l, hl, hall⟩
    simp [stHas, stGet_stRemove_self]

/-- C6 witness: on a fresh application, removing validator `[7]` before
any add fails with Unauthorized and changes nothing; adding it with power
5 and then removing it succeeds, deletes the record, and the enumeration
no longer contains it. -/
theorem validator_remove_semantics_witness :
    ((0 : Int) < 5 ∧ stHas emptyApp.state.tree (valKey [7]) = false) ∧
    (((DeliverTx emptyApp ⟨ValidatorSet, "", "", none, none, some ⟨[7], 0⟩⟩).1.Code
        = code.CodeTypeUnauthorized ∧
      (DeliverTx emptyApp ⟨ValidatorSet, "", "", none, none, some ⟨[7], 0⟩⟩).2 = emptyApp) ∧
      ((DeliverTx (DeliverTx emptyApp ⟨ValidatorSet, "", "", none, none, some ⟨[7], 5⟩⟩).2
          ⟨ValidatorSet, "", "", none, none, some ⟨[7], 0⟩⟩).1.Code = code.Ok ∧
        stHas (DeliverTx (DeliverTx emptyApp ⟨ValidatorSet, "", "", none, none, some ⟨[7], 5⟩⟩).2
          ⟨ValidatorSet, "", "", none, none, some ⟨[7], 0⟩⟩).2.state.tree (valKey [7]) = false ∧
        ∃ l, Validators (DeliverTx
            (DeliverTx emptyApp ⟨ValidatorSet, "", "", none, none, some ⟨[7], 5⟩⟩).2
            ⟨ValidatorSet, "", "", none, none, some ⟨[7], 0⟩⟩).2.state.tree = some l ∧
          ∀ w ∈ l, w.PubKey ≠ [7])) :=
  ⟨⟨by decide, rfl⟩,
    validator_remove_semantics emptyApp [7] 5
      ⟨ValidatorSet, "", "", none, none, some ⟨[7], 5⟩⟩
      ⟨ValidatorSet, "", "", none, none, some ⟨[7], 0⟩⟩
      rfl rfl (by decide) rfl rfl rfl rfl⟩

/-- C7 counterexample: a payload that parses to the Unknown variant but
carries a non-empty signature whose signer key has rank 0 in the store is
rejected by `CheckTx` with the EncodingError code but with the
signature-gate log `节点账户不存在`, not `"unknown transaction type"` as
the claim states for every Unknown payload. -/
theorem unknown_tx_log_counterexample :
    (CheckTx emptyApp ⟨"bogus", "s", "p", none, none, none⟩).1.Code
      = code.CodeTypeEncodingError ∧
    (CheckTx emptyApp ⟨"bogus", "s", "p", none, none, none⟩).1.Log
      ≠ "unknown transaction type" := by
  decide

/-- C7 amended: for every payload parsing to the Unknown variant,
`DeliverTx` returns the EncodingError code with log
`"unknown transaction type"` and performs no store mutation and no pending
validator-update append (the application is returned unchanged, so the
in-progress root fingerprint for the height is unchanged); `CheckTx`
returns the EncodingError code with the same log whenever the signature
gate passes (empty signature, or the signer account key's rank is
nonzero) — with a non-empty signature failing the gate it still returns
the EncodingError code, but with the gate's own log. -/
theorem unknown_tx_encodingError (app : App) (tx : Transaction)
    (h1 : tx.type ≠ DbSet) (h2 : tx.type ≠ AccountSet) (h3 : tx.type ≠ ValidatorSet) :
    DeliverTx app tx = (⟨code.CodeTypeEncodingError, "unknown transaction type"⟩, app) ∧
    ((tx.Signature = "" ∨
        stIndexOf app.state.tree (strB (AccountSetChangePfx ++ tx.SignPubKey)) ≠ 0) →
      CheckTx app tx = (⟨code.CodeTypeEncodingError, "unknown transaction type"⟩, app)) := by
  constructor
  · simp only [DeliverTx, if_neg h1, if_neg h2, if_neg h3]
  · intro hs
    have hgate : ¬(tx.Signature ≠ "" ∧
        stIndexOf app.state.tree (strB (AccountSetChangePfx ++ tx.SignPubKey)) = 0) := by
      rcases hs with hs | hs
      · intro hc
        exact hc.1 hs
      · intro hc
        exact hs hc.2
    simp only [CheckTx, if_neg hgate, if_neg h1, if_neg h2, if_neg h3]

/-- C7 amended, witness: an unsigned Unknown-variant payload gets
`"unknown transaction type"` with the EncodingError code from both
`DeliverTx` and `CheckTx` on a fresh application, which is left
unchanged. -/
theorem unknown_tx_encodingError_witness :
    (("bogus" : String) ≠ DbSet ∧ ("bogus" : String) ≠ AccountSet ∧
      ("bogus" : String) ≠ ValidatorSet) ∧
    (DeliverTx emptyApp ⟨"bogus", "", "p", none, none, none⟩
        = (⟨code.CodeTypeEncodingError, "unknown transaction type"⟩, emptyApp) ∧
      (((⟨"bogus", "", "p", none, none, none⟩ : Transaction).Signature = "" ∨
          stIndexOf emptyApp.state.tree (strB (AccountSetChangePfx ++
            (⟨"bogus", "", "p", none, none, none⟩ : Transaction).SignPubKey)) ≠ 0) →
        CheckTx emptyApp ⟨"bogus", "", "p", none, none, none⟩
          = (⟨code.CodeTypeEncodingError, "unknown transaction type"⟩, emptyApp))) :=
  ⟨⟨by decide, by decide, by decide⟩,
    unknown_tx_encodingError emptyApp ⟨"bogus", "", "p", none, none, none⟩
      (by decide) (by decide) (by decide)⟩

/-- C8: a `Query` on path `DbGet` with a well-formed request for a key
absent from the store returns code OK (the Go zero code), log
`"does not exist"`, an empty value, and echoes the queried key. -/
theorem query_absent_key (app : App) (db : Db)
    (h : stGet app.state.tree (strB db.Key) = none) :
    Query app ⟨DbGet, some db⟩ =
      ⟨code.Ok, "does not exist", stIndexOf app.state.tree (strB db.Key), strB db.Key, []⟩ := by
  simp only [Query, if_pos rfl, h]
  rfl

/-- C8 witness: querying the key `"missing"` on a fresh application
returns OK, `"does not exist"` and an empty value. -/
theorem query_absent_key_witness :
    (stGet emptyApp.state.tree (strB "missing") = none) ∧
    Query emptyApp ⟨DbGet, some ⟨"missing", ""⟩⟩ =
      ⟨code.Ok, "does not exist", stIndexOf emptyApp.state.tree (strB "missing"),
        strB "missing", []⟩ :=
  ⟨rfl, query_absent_key emptyApp ⟨"missing", ""⟩ rfl⟩

/-- C9: the outcome of `DeliverTx` is independent of the signer and
signature fields: two transactions equal in type and payload decodings
but differing arbitrarily in `Signature` and `SignPubKey` produce the
same response and the same application state (same store mutations, same
pending validator updates) — `DeliverTx` never consults the signature,
the signer's account, or the genesis authorization set. -/
theorem deliverTx_ignores_signature_fields (app : App) (t1 t2 : Transaction)
    (ht : t1.type = t2.type) (hdb : t1.db = t2.db)
    (ha : t1.account = t2.account) (hv : t1.validator = t2.validator) :
    DeliverTx app t1 = DeliverTx app t2 := by
  cases t1
  cases t2
  dsimp only at ht hdb ha hv
  subst ht
  subst hdb
  subst ha
  subst hv
  rfl

/-- C9 witness: a `ValidatorChange` with a fabricated signature and one
with no signature at all execute identically. -/
theorem deliverTx_ignores_signature_fields_witness :
    ((⟨ValidatorSet, "sig", "attacker", none, none, some ⟨[7], 20⟩⟩ : Transaction).type
        = (⟨ValidatorSet, "", "", none, none, some ⟨[7], 20⟩⟩ : Transaction).type) ∧
    DeliverTx emptyApp ⟨ValidatorSet, "sig", "attacker", none, none, some ⟨[7], 20⟩⟩
      = DeliverTx emptyApp ⟨ValidatorSet, "", "", none, none, some ⟨[7], 20⟩⟩ :=
  ⟨rfl, deliverTx_ignores_signature_fields emptyApp
    ⟨ValidatorSet, "sig", "attacker", none, none, some ⟨[7], 20⟩⟩
    ⟨ValidatorSet, "", "", none, none, some ⟨[7], 20⟩⟩ rfl rfl rfl rfl⟩

/-- C10: for every payload classified as `AccountRegister`, `DeliverTx`
discards the decode error of the account parser (using the zero-valued
account when the decode failed) and unconditionally writes
`account-prefix + publicKey -> decimal power` into the store, returning
OK and never EncodingError; the pending validator updates are untouched. -/
theorem deliverTx_accountSet_unconditional (app : App) (tx : Transaction)
    (h : tx.type = AccountSet) :
    DeliverTx app tx =
      (⟨code.Ok, ""⟩,
        { app with state := { app.state with
            tree := stSet app.state.tree
              (strB (AccountPfx ++ (tx.account.getD ⟨"", 0⟩).PubKey))
              (strB (toString (tx.account.getD ⟨"", 0⟩).Power)) } }) ∧
    (DeliverTx app tx).1.Code ≠ code.CodeTypeEncodingError ∧
    (DeliverTx app tx).2.ValUpdates = app.ValUpdates := by
  have hne : tx.type ≠ DbSet := by rw [h]; decide
  have heq : DeliverTx app tx =
      (⟨code.Ok, ""⟩,
        { app with state := { app.state with
            tree := stSet app.state.tree
              (strB (AccountPfx ++ (tx.account.getD ⟨"", 0⟩).PubKey))
              (strB (toString (tx.account.getD ⟨"", 0⟩).Power)) } }) := by
    simp only [DeliverTx, if_neg hne, if_pos h]
  exact ⟨heq, by rw [heq]; exact (by decide : code.Ok ≠ code.CodeTypeEncodingError), by rw [heq]⟩

/-- C10 witness: an `AccountRegister` whose account payload fails to
decode (`none`) is still applied by `DeliverTx` with OK, writing the
zero-valued account under the account prefix. -/
theorem deliverTx_accountSet_unconditional_witness :
    ((⟨AccountSet, "s", "p", none, none, none⟩ : Transaction).type = AccountSet) ∧
    (DeliverTx emptyApp ⟨AccountSet, "s", "p", none, none, none⟩ =
      (⟨code.Ok, ""⟩,
        { emptyApp with state := { emptyApp.state with
            tree := stSet emptyApp.state.tree
              (strB (AccountPfx ++ ((none : Option Account).getD ⟨"", 0⟩).PubKey))
              (strB (toString ((none : Option Account).getD ⟨"", 0⟩).Power)) } }) ∧
      (DeliverTx emptyApp ⟨AccountSet, "s", "p", none, none, none⟩).1.Code
        ≠ code.CodeTypeEncodingError ∧
      (DeliverTx emptyApp ⟨AccountSet, "s", "p", none, none, none⟩).2.ValUpdates
        = emptyApp.ValUpdates) :=
  ⟨rfl, deliverTx_accountSet_unconditional emptyApp
    ⟨AccountSet, "s", "p", none, none, none⟩ rfl⟩
